import Mathlib

/-!
# Verification of the babel-preset-env resolution core (src/index.js)

Shallow embedding of the compatibility-resolution engine:
`isPluginRequired`, `transformIncludesAndExcludes`,
`getPlatformSpecificDefaultFor`, `filterItems`, `getBuiltInTargets` and the
resolution portion of `buildPreset`, all from `src/index.js`.

JavaScript objects used as string-keyed maps are embedded as association
lists `List (String × Ver)` (JS object keys are unique; `Object.keys`
enumerates them in insertion order, which association lists preserve).
JS `Set`s of names are embedded as duplicate-free `List String` built with
`setAdd`. Code that can `throw` is embedded in `Except String`.

The helpers `semverify` (from `src/utils.js`), the default polyfill list
(from `src/default-includes.js`), the target normalizer `getTargets`
(from `src/targets-parser.js`) and `normalizeOptions`
(from `src/normalize-options.js`) are not present under `src/`; they are
modelled from the spec where needed, as marked on their definitions.
-/

/-- A JavaScript value standing in a target map or a support table.

* `semver a b c` — the string `"a.b.c"`, a fully specified semantic version
  (the only shape `semver.valid` accepts here);
* `num n` — the number `n` (a major-only version, e.g. `{chrome: 52}`);
  numeric version strings behave identically for validity and
  normalization;
* `invalid s` — any other string, e.g. `"latest"` or `""`.

JS truthiness: the number `0` and the empty string are falsy; every other
value of these shapes is truthy (`isFalsy`). -/
inductive Ver where
  | semver (major minor patch : Nat)
  | num (n : Nat)
  | invalid (s : String)
  deriving DecidableEq, Repr

/-- JS falsiness of a `Ver`: the number `0` and the empty string `""`. -/
def isFalsy : Ver → Bool
  | .num 0 => true
  | .invalid "" => true
  | _ => false

/-- How a `Ver` renders inside a JS template string. -/
def verString : Ver → String
  | .semver a b c => toString a ++ "." ++ toString b ++ "." ++ toString c
  | .num n => toString n
  | .invalid s => s

/-- `semver.valid`: true exactly on fully specified `major.minor.patch`
version strings. -/
def semverValid : Ver → Bool
  | .semver _ _ _ => true
  | _ => false

/-- `semver.gt` on two valid semantic versions: lexicographic comparison of
the `(major, minor, patch)` triples. Both arguments are always valid at the
call sites (the first is produced by `semverify`, the second has passed
`semver.valid`); on any other shape the result is never used and is
`false`. -/
def semverGtB : Ver → Ver → Bool
  | .semver a b c, .semver d e f =>
    if a ≠ d then decide (d < a)
    else if b ≠ e then decide (e < b)
    else decide (f < c)
  | _, _ => false

/-- Modelled from the spec: `semverify` lives in `src/utils.js`, which is
not under `src/`. Spec §4.2: "Accepts either an already-valid semantic
version string, or a single non-negative integer/numeric-string (treated as
a major version with minor=0, patch=0). Fails (raises an error) on any
other shape." -/
def semverify : Ver → Except String Ver
  | .semver a b c => .ok (.semver a b c)
  | .num n => .ok (.semver n 0 0)
  | .invalid s => .error ("Invalid version passed for: \"" ++ s ++ "\"")

/-- A JS object used as a string-keyed map of `Ver` values
(a `TargetMap` or a `SupportTable`). -/
abbrev JSMap := List (String × Ver)

/-- Property access `m[k]`: the first binding for key `k`, if any
(JS object keys are unique, so "first" is exact). -/
def jsGet : JSMap → String → Option Ver
  | [], _ => none
  | (k, v) :: rest, key => if k = key then some v else jsGet rest key

/-- Property access where the key is known to be present; the default is
never reached when `key` is one of the map's keys. -/
def jsGetD (m : JSMap) (key : String) : Ver :=
  (jsGet m key).getD (Ver.invalid "")

/-- Truthiness of the property access `m[k]`: the key is present and its
value is truthy (absent keys read as `undefined`, which is falsy). -/
def jsTruthyAt (m : JSMap) (key : String) : Bool :=
  match jsGet m key with
  | none => false
  | some v => !(isFalsy v)

/-- The error text of `src/index.js` lines 40–43, with the environment and
the offending value interpolated. -/
def invalidTargetMsg (environment : String) (v : Ver) : String :=
  "Invalid version passed for target \"" ++ environment ++ "\": \""
    ++ verString v
    ++ "\". Versions must be in semver format (major.minor.patch)"

/-- The callback of `targetEnvironments.filter` in `isPluginRequired`
(`src/index.js` lines 30–50) for one environment key:
* a falsy `plugin[environment]` (absent or falsy value) makes the feature
  required;
* otherwise the target's version must pass `semver.valid`, else the
  invalid-target error is thrown;
* otherwise the feature is required iff
  `semver.gt(semverify(lowestImplementedVersion), lowestTargetedVersion)`. -/
def envRequired (supportedEnvironments plugin : JSMap)
    (environment : String) : Except String Bool :=
  match jsGet plugin environment with
  | none => .ok true
  | some lowestImplementedVersion =>
    if isFalsy lowestImplementedVersion then .ok true
    else
      let lowestTargetedVersion := jsGetD supportedEnvironments environment
      if !(semverValid lowestTargetedVersion) then
        .error (invalidTargetMsg environment lowestTargetedVersion)
      else
        match semverify lowestImplementedVersion with
        | .error e => .error e
        | .ok v => .ok (semverGtB v lowestTargetedVersion)

/-- `Array.prototype.filter` over the environment keys with a callback that
may throw: elements are visited left to right and the first thrown error
aborts the whole call. -/
def filterReq (supportedEnvironments plugin : JSMap) :
    List String → Except String (List String)
  | [] => .ok []
  | environment :: rest => do
    let b ← envRequired supportedEnvironments plugin environment
    let tail ← filterReq supportedEnvironments plugin rest
    .ok (if b then environment :: tail else tail)

/-- `isPluginRequired` (`src/index.js` lines 23–53): an empty target map
returns `true` unconditionally; otherwise the candidate is required iff the
filtered list of requiring environments is non-empty. -/
def isPluginRequired (supportedEnvironments plugin : JSMap) :
    Except String Bool :=
  let targetEnvironments := supportedEnvironments.map Prod.fst
  if targetEnvironments.length = 0 then .ok true
  else do
    let isRequiredForEnvironments ←
      filterReq supportedEnvironments plugin targetEnvironments
    .ok (decide (0 < isRequiredForEnvironments.length))

/-- `Set.prototype.add` on a set embedded as a duplicate-free list:
append the element if it is not already present. -/
def setAdd (l : List String) (x : String) : List String :=
  if x ∈ l then l else l ++ [x]

/-- A catalog (`plugins.json` / `built-ins.json` shape): item name to
support table. The catalog data itself is externally supplied static data
(spec §1, out of scope), so it is a parameter throughout. -/
abbrev Catalog := List (String × JSMap)

/-- The `for (const item in list)` loop of `filterItems`
(`src/index.js` lines 103–109): an item is added iff it is not excluded and
`isPluginRequired` holds; `isPluginRequired` is not called on excluded
items (`&&` short-circuit), and a thrown error aborts the loop. -/
def filterCatalog (excludes : List String) (targets : JSMap) :
    Catalog → List String → Except String (List String)
  | [], result => .ok result
  | (item, table) :: rest, result =>
    if item ∈ excludes then filterCatalog excludes targets rest result
    else do
      let required ← isPluginRequired targets table
      filterCatalog excludes targets rest
        (if required then setAdd result item else result)

/-- `filterItems` (`src/index.js` lines 100–118): catalog pass, then the
optional default items minus the excludes, then every include
unconditionally. -/
def filterItems (list : Catalog) (includes excludes : List String)
    (targets : JSMap) (defaultItems : Option (List String)) :
    Except String (List String) := do
  let result ← filterCatalog excludes targets list []
  let withDefaults :=
    match defaultItems with
    | some items =>
      items.foldl (fun r item => if item ∈ excludes then r else setAdd r item)
        result
    | none => result
  .ok (includes.foldl (fun r item => setAdd r item) withDefaults)

/-- `\d*\.`: zero or more decimal digits followed by a literal dot. -/
def restDigitsThenDot : List Char → Bool
  | [] => false
  | c :: cs => c = '.' || (c.isDigit && restDigitsThenDot cs)

/-- `\d+\.`: at least one decimal digit followed by a literal dot. -/
def digitsThenDot : List Char → Bool
  | [] => false
  | c :: cs => c.isDigit && restDigitsThenDot cs

/-- The test `opt.match(/^(es\d+|web)\./)` of `src/index.js` line 80:
the name starts with `es`, one or more digits and a dot, or with `web.`. -/
def isBuiltInName (s : String) : Bool :=
  match s.toList with
  | 'e' :: 's' :: rest => digitsThenDot rest
  | 'w' :: 'e' :: 'b' :: '.' :: _ => true
  | _ => false

/-- The record returned by `transformIncludesAndExcludes`: the original
input plus the two partitioned name sets. -/
structure IncExc where
  all : List String
  plugins : List String
  builtIns : List String
  deriving DecidableEq, Repr

/-- One step of the `reduce` in `transformIncludesAndExcludes`
(`src/index.js` lines 78–89): route the name to `builtIns` or `plugins` by
the prefix test. -/
def classifyStep (result : IncExc) (opt : String) : IncExc :=
  if isBuiltInName opt then
    { result with builtIns := setAdd result.builtIns opt }
  else
    { result with plugins := setAdd result.plugins opt }

/-- `transformIncludesAndExcludes` (`src/index.js` lines 77–90). -/
def transformIncludesAndExcludes (opts : List String) : IncExc :=
  opts.foldl classifyStep { all := opts, plugins := [], builtIns := [] }

/-- Modelled from the spec: `defaultWebIncludes` lives in
`src/default-includes.js`, which is not under `src/`. Spec §4.4 only calls
it "a predetermined default item set"; its exact contents are irrelevant to
the claims, which only distinguish this set from `null`. -/
def defaultWebIncludes : List String :=
  ["web.timers", "web.immediate", "web.dom.iterable"]

/-- `getPlatformSpecificDefaultFor` (`src/index.js` lines 92–98): the
default set when no target is declared or some target is not `"node"`,
else `null` (embedded as `none`). -/
def getPlatformSpecificDefaultFor (targets : JSMap) : Option (List String) :=
  let targetNames := targets.map Prod.fst
  let isAnyTarget := targetNames.isEmpty
  let isWebTarget := targetNames.any (fun name => name ≠ "node")
  if isAnyTarget || isWebTarget then some defaultWebIncludes else none

/-- `delete m[key]`: remove the binding for `key` (unique in a JS object). -/
def jsDelete (m : JSMap) (key : String) : JSMap :=
  m.filter (fun p => p.1 ≠ key)

/-- `getBuiltInTargets` (`src/index.js` lines 69–75): copy the targets and
drop the `uglify` key when it is present (`!= null` tests presence, not
truthiness). -/
def getBuiltInTargets (targets : JSMap) : JSMap :=
  if (jsGet targets "uglify").isSome then jsDelete targets "uglify"
  else targets

/-- Modelled from the spec: `getTargets` lives in
`src/targets-parser.js`, which is not under `src/`. Spec §6: `targets` is
"pre-normalized into TargetMap by an external normalizer (consumed
as-is)", so on an already-normalized map the parser is the identity; a
missing `targets` option yields the empty map. -/
def getTargets : Option JSMap → JSMap
  | some t => t
  | none => []

/-- The resolution-relevant outcome of one `buildPreset` call: the final
state of the caller-supplied `targets` option object (`buildPreset`
mutates it in place when stripping `uglify`), the deprecation flag, the
effective target map used for transformation filtering, and the resolved
sets and regenerator flag. -/
structure BuildPresetOut where
  optionsTargetsOut : Option JSMap
  hasUglifyTarget : Bool
  transformTargets : JSMap
  transformations : List String
  polyfillTargets : Option JSMap
  polyfills : Option (List String)
  regenerator : Bool
  deriving DecidableEq, Repr

/-- The resolution core of `buildPreset` (`src/index.js` lines 120–214):
the uglify special case, include/exclude classification, the two
`filterItems` passes and the regenerator flag. `normalizeOptions`
(`src/normalize-options.js`, not under `src/`) is modelled from the spec as
passing the option fields through unchanged (spec §1 places option
normalization out of scope; spec §9 confirms the `delete` acts on the
caller-supplied target descriptor). Debug logging, plugin loading and the
ordered plugin-list emission are outside the claims and not modelled; of
`useBuiltIns` only truthiness matters here (line 161). -/
def buildPresetCore (pluginList builtInsList : Catalog)
    (optionsTargets : Option JSMap)
    (optionsInclude optionsExclude : List String)
    (useBuiltIns : Bool) (useSyntax : Bool) :
    Except String BuildPresetOut := do
  let hasUglifyTarget :=
    match optionsTargets with
    | some t => jsTruthyAt t "uglify"
    | none => false
  let optionsTargets :=
    if hasUglifyTarget then optionsTargets.map (fun t => jsDelete t "uglify")
    else optionsTargets
  let targets := getTargets optionsTargets
  let includeSets := transformIncludesAndExcludes optionsInclude
  let excludeSets := transformIncludesAndExcludes optionsExclude
  let transformTargets := if !useSyntax || hasUglifyTarget then [] else targets
  let transformations ←
    filterItems pluginList includeSets.plugins excludeSets.plugins
      transformTargets none
  let pair ←
    if useBuiltIns then do
      let polyfillTargets := getBuiltInTargets targets
      let polyfills ←
        filterItems builtInsList includeSets.builtIns excludeSets.builtIns
          polyfillTargets (getPlatformSpecificDefaultFor polyfillTargets)
      pure (some polyfillTargets, some polyfills)
    else pure ((none : Option JSMap), (none : Option (List String)))
  let regenerator := transformations.contains "transform-regenerator"
  .ok { optionsTargetsOut := optionsTargets
        hasUglifyTarget := hasUglifyTarget
        transformTargets := transformTargets
        transformations := transformations
        polyfillTargets := pair.1
        polyfills := pair.2
        regenerator := regenerator }

/-- The claim's per-environment requirement condition, stated from the
spec's words (with the correction the counterexample for C1 forces: an
environment whose support-table entry is present but falsy also makes the
candidate required): the support table has no truthy entry for the
environment, or its normalized version is strictly greater than the
target's version. For comparison with what `isPluginRequired` computes. -/
def specRequiresFor (supportedEnvironments plugin : JSMap)
    (environment : String) : Bool :=
  match jsGet plugin environment with
  | none => true
  | some v =>
    isFalsy v ||
      (match semverify v with
       | .ok nv => semverGtB nv (jsGetD supportedEnvironments environment)
       | .error _ => false)

/-- The claim's naming pattern for builtin/polyfill names, stated from the
spec's words: the name starts with `"es"`, one or more digits and a dot,
or starts with `"web."`. For comparison with the regex test
`isBuiltInName`. -/
def SpecBuiltInName (s : String) : Prop :=
  (∃ ds tail, s.toList = 'e' :: 's' :: (ds ++ '.' :: tail)
      ∧ ds ≠ [] ∧ ∀ c ∈ ds, c.isDigit = true)
  ∨ (∃ tail, s.toList = 'w' :: 'e' :: 'b' :: '.' :: tail)

example : isPluginRequired [] [("chrome", Ver.num 52)] = .ok true := rfl
example :
    isPluginRequired [("chrome", Ver.semver 55 0 0)] [("chrome", Ver.num 52)]
      = .ok false := rfl
example :
    isPluginRequired [("chrome", Ver.semver 55 0 0)] [("chrome", Ver.num 60)]
      = .ok true := rfl
example : isPluginRequired [("chrome", Ver.invalid "latest")] [] = .ok true := rfl
example :
    isPluginRequired [("chrome", Ver.invalid "latest")]
      [("chrome", Ver.num 52)]
      = .error (invalidTargetMsg "chrome" (Ver.invalid "latest")) := rfl

example : isBuiltInName "es6.promise" = true := rfl
example : isBuiltInName "web.timers" = true := rfl
example : isBuiltInName "transform-arrow-functions" = false := rfl
example : isBuiltInName "es.promise" = false := rfl
example : isBuiltInName "establish" = false := rfl
example : isBuiltInName "webs.x" = false := rfl
example :
    transformIncludesAndExcludes
      ["es6.promise", "transform-arrow-functions", "web.timers"]
      = { all := ["es6.promise", "transform-arrow-functions", "web.timers"]
          plugins := ["transform-arrow-functions"]
          builtIns := ["es6.promise", "web.timers"] } := by decide

example : getPlatformSpecificDefaultFor [] = some defaultWebIncludes := rfl
example : getPlatformSpecificDefaultFor [("node", Ver.semver 8 0 0)] = none := by
  decide
example :
    getPlatformSpecificDefaultFor
      [("node", Ver.semver 8 0 0), ("chrome", Ver.semver 60 0 0)]
      = some defaultWebIncludes := by decide

example :
    filterItems [("transform-foo", [("chrome", Ver.num 60)])] [] []
      [("chrome", Ver.semver 55 0 0)] none = .ok ["transform-foo"] := rfl

example :
    (buildPresetCore [("transform-foo", [])] [] (some [("uglify", Ver.num 0)])
        [] [] false true).map
      (fun o => (o.optionsTargetsOut, o.transformTargets))
      = .ok (some [("uglify", Ver.num 0)], [("uglify", Ver.num 0)]) := rfl

example :
    (buildPresetCore [("transform-foo", [])] [] none [] ["transform-foo"]
        false false).map
      (fun o => (o.transformTargets, o.transformations))
      = .ok ([], []) := rfl

/-! ## Helper lemmas -/

theorem except_bind_ok {α β : Type} {e : Except String α}
    {f : α → Except String β} {r : β} :
    (e >>= f) = .ok r ↔ ∃ a, e = .ok a ∧ f a = .ok r := by
  cases e with
  | error s =>
    constructor
    · intro h
      exact absurd h (by simp [Bind.bind, Except.bind])
    · rintro ⟨a, ha, -⟩
      cases ha
  | ok a =>
    constructor
    · intro h
      exact ⟨a, rfl, h⟩
    · rintro ⟨b, hb, hf⟩
      cases hb
      exact hf

theorem mem_setAdd_iff {l : List String} {x y : String} :
    y ∈ setAdd l x ↔ y ∈ l ∨ y = x := by
  unfold setAdd
  split
  · rename_i hx
    constructor
    · exact Or.inl
    · rintro (hy | rfl)
      · exact hy
      · exact hx
  · simp [List.mem_append]

theorem mem_foldl_setAdd {includes acc : List String} {x : String} :
    x ∈ includes.foldl (fun r item => setAdd r item) acc ↔
      x ∈ acc ∨ x ∈ includes := by
  induction includes generalizing acc with
  | nil => simp
  | cons a rest ih =>
    simp only [List.foldl_cons, ih, mem_setAdd_iff, List.mem_cons]
    tauto

theorem mem_excludeFold {items excludes acc : List String} {x : String} :
    x ∈ items.foldl
        (fun r item => if item ∈ excludes then r else setAdd r item) acc ↔
      x ∈ acc ∨ (x ∈ items ∧ x ∉ excludes) := by
  induction items generalizing acc with
  | nil => simp
  | cons a rest ih =>
    simp only [List.foldl_cons]
    by_cases ha : a ∈ excludes
    · rw [if_pos ha, ih]
      constructor
      · rintro (h | ⟨h1, h2⟩)
        · exact Or.inl h
        · exact Or.inr ⟨List.mem_cons_of_mem _ h1, h2⟩
      · rintro (h | ⟨h1, h2⟩)
        · exact Or.inl h
        · rcases List.mem_cons.mp h1 with rfl | h1
          · exact absurd ha h2
          · exact Or.inr ⟨h1, h2⟩
    · rw [if_neg ha, ih]
      simp only [mem_setAdd_iff, List.mem_cons]
      constructor
      · rintro ((h | rfl) | ⟨h1, h2⟩)
        · exact Or.inl h
        · exact Or.inr ⟨Or.inl rfl, ha⟩
        · exact Or.inr ⟨Or.inr h1, h2⟩
      · rintro (h | ⟨rfl | h1, h2⟩)
        · exact Or.inl (Or.inl h)
        · exact Or.inl (Or.inr rfl)
        · exact Or.inr ⟨h1, h2⟩

theorem jsGet_mem {m : JSMap} {k : String} {v : Ver}
    (h : jsGet m k = some v) : (k, v) ∈ m := by
  induction m with
  | nil => cases h
  | cons p rest ih =>
    obtain ⟨k0, v0⟩ := p
    unfold jsGet at h
    by_cases hk : k0 = k
    · rw [if_pos hk] at h
      cases h
      subst hk
      exact List.mem_cons_self _ _
    · rw [if_neg hk] at h
      exact List.mem_cons_of_mem _ (ih h)

theorem mem_keys_jsGet {m : JSMap} {k : String}
    (h : k ∈ m.map Prod.fst) : ∃ v, jsGet m k = some v := by
  induction m with
  | nil => cases h
  | cons p rest ih =>
    obtain ⟨k0, v0⟩ := p
    by_cases hk : k0 = k
    · exact ⟨v0, by simp [jsGet, hk]⟩
    · rcases List.mem_cons.mp h with h1 | h1
      · exact absurd h1.symm hk
      · obtain ⟨v, hv⟩ := ih h1
        exact ⟨v, by simp [jsGet, hk, hv]⟩

theorem jsGet_jsDelete_self (m : JSMap) (key : String) :
    jsGet (jsDelete m key) key = none := by
  induction m with
  | nil => rfl
  | cons p rest ih =>
    obtain ⟨k0, v0⟩ := p
    unfold jsDelete at ih ⊢
    by_cases hk : k0 = key
    · simpa [List.filter_cons, hk] using ih
    · simpa [List.filter_cons, hk, jsGet] using ih

theorem jsGet_jsDelete_ne (m : JSMap) (key k : String) (h : k ≠ key) :
    jsGet (jsDelete m key) k = jsGet m k := by
  induction m with
  | nil => rfl
  | cons p rest ih =>
    obtain ⟨k0, v0⟩ := p
    unfold jsDelete at ih ⊢
    by_cases hk : k0 = key
    · subst hk
      have hne : ¬ (k0 = k) := fun hc => h (hc.symm)
      simpa [List.filter_cons, jsGet, hne] using ih
    · simp only [List.filter_cons]
      by_cases hk2 : k0 = k
      · simp [hk, jsGet, hk2, h]
      · simpa [hk, jsGet, hk2] using ih

theorem envRequired_of_falsy (T S : JSMap) (k : String)
    (h : jsTruthyAt S k = false) : envRequired T S k = .ok true := by
  unfold jsTruthyAt at h
  unfold envRequired
  cases hg : jsGet S k with
  | none => simp [hg]
  | some v =>
    rw [hg] at h
    simp only [Bool.not_eq_false'] at h
    simp [hg, h]

theorem envRequired_eq_spec (T S : JSMap) (k : String)
    (hT : semverValid (jsGetD T k) = true)
    (hS : ∀ v, jsGet S k = some v → isFalsy v = false →
        ∃ nv, semverify v = Except.ok nv) :
    envRequired T S k = .ok (specRequiresFor T S k) := by
  unfold envRequired specRequiresFor
  cases hg : jsGet S k with
  | none => simp
  | some v =>
    by_cases hf : isFalsy v = true
    · simp [hf]
    · have hf' : isFalsy v = false := by simpa using hf
      obtain ⟨nv, hnv⟩ := hS v hg hf'
      simp [hf', hT, hnv]

theorem filterReq_eq_filter (T S : JSMap) (ks : List String)
    (hT : ∀ k ∈ ks, semverValid (jsGetD T k) = true)
    (hS : ∀ k ∈ ks, ∀ v, jsGet S k = some v → isFalsy v = false →
        ∃ nv, semverify v = Except.ok nv) :
    filterReq T S ks = .ok (ks.filter (fun k => specRequiresFor T S k)) := by
  induction ks with
  | nil => rfl
  | cons k rest ih =>
    have hk := envRequired_eq_spec T S k (hT k (List.mem_cons_self _ _))
      (hS k (List.mem_cons_self _ _))
    have hrest := ih (fun a ha => hT a (List.mem_cons_of_mem _ ha))
      (fun a ha => hS a (List.mem_cons_of_mem _ ha))
    unfold filterReq
    rw [hk, hrest]
    show Except.ok
        (if specRequiresFor T S k then
          k :: rest.filter (fun a => specRequiresFor T S a)
        else rest.filter (fun a => specRequiresFor T S a))
      = _
    rw [List.filter_cons]

/-! ## Claims -/

/-- C4: for every support table, `isPluginRequired` on the empty target map
returns `true` unconditionally. -/
theorem isPluginRequired_empty_targets (plugin : JSMap) :
    isPluginRequired [] plugin = .ok true := rfl

/-- C10: for an environment key whose support-table entry is absent or
falsy, the per-environment decision of `isPluginRequired` is `true`, for
every target map — in particular for one whose version for that key is not
valid semver, so the target-version validation never runs there; and
concretely `isPluginRequired({chrome: "latest"}, {})` returns `true`
without raising. -/
theorem isPluginRequired_skips_validation_on_falsy_support :
    (∀ (T S : JSMap) (k : String), jsTruthyAt S k = false →
        envRequired T S k = .ok true)
    ∧ isPluginRequired [("chrome", Ver.invalid "latest")] [] = .ok true :=
  ⟨envRequired_of_falsy, rfl⟩

/-- Witness for C10 at `T = {chrome: "latest"}`, `S = {}`, `k = "chrome"`. -/
theorem isPluginRequired_skips_validation_on_falsy_support_witness :
    envRequired [("chrome", Ver.invalid "latest")] [] "chrome" = .ok true :=
  isPluginRequired_skips_validation_on_falsy_support.1
    [("chrome", Ver.invalid "latest")] [] "chrome" rfl

/-- C2 counterexample: `T = {chrome: "latest"}` has an invalid target
version, yet with the empty support table `isPluginRequired` returns
`ok true` instead of raising — the validation is skipped for environments
the support table does not cover. -/
theorem isPluginRequired_invalid_target_no_raise_cex :
    isPluginRequired [("chrome", Ver.invalid "latest")] [] = .ok true := rfl

/-- C2 (amended): `isPluginRequired` raises the invalid-target error for a
target map whose version for an environment is not valid semver provided
the support table has a truthy entry for that environment; the error
message names the offending environment and value. -/
theorem isPluginRequired_invalid_target_raises
    (environment : String) (val : Ver) (S : JSMap)
    (hval : semverValid val = false)
    (hS : jsTruthyAt S environment = true) :
    isPluginRequired [(environment, val)] S
      = .error (invalidTargetMsg environment val)
    ∧ invalidTargetMsg environment val
      = "Invalid version passed for target \"" ++ environment ++ "\": \""
          ++ verString val
          ++ "\". Versions must be in semver format (major.minor.patch)" := by
  refine ⟨?_, rfl⟩
  have henv : envRequired [(environment, val)] S environment
      = .error (invalidTargetMsg environment val) := by
    unfold jsTruthyAt at hS
    unfold envRequired
    cases hg : jsGet S environment with
    | none => rw [hg] at hS; cases hS
    | some v =>
      rw [hg] at hS
      simp only [Bool.not_eq_true'] at hS
      have hd : jsGetD [(environment, val)] environment = val := by
        simp [jsGetD, jsGet]
      simp [hS, hd, hval]
  unfold isPluginRequired
  simp only [List.map_cons, List.map_nil, List.length_cons, List.length_nil]
  rw [if_neg (by simp)]
  unfold filterReq
  rw [henv]
  rfl

/-- Witness for C2 at `T = {chrome: "latest"}`, `S = {chrome: 52}`. -/
theorem isPluginRequired_invalid_target_raises_witness :
    isPluginRequired [("chrome", Ver.invalid "latest")]
        [("chrome", Ver.num 52)]
      = .error (invalidTargetMsg "chrome" (Ver.invalid "latest")) :=
  (isPluginRequired_invalid_target_raises "chrome" (Ver.invalid "latest")
    [("chrome", Ver.num 52)] rfl rfl).1

/-- C1 counterexample: `T = {chrome: "1.0.0"}`, `S = {chrome: 0}`. The
support table covers every key of `T` and its normalized version `0.0.0`
is not greater than the target `1.0.0`, so the claim says the result is
`false`; the code returns `true`, because the entry `0` is falsy and is
treated like a missing one. -/
theorem isPluginRequired_falsy_entry_cex :
    isPluginRequired [("chrome", Ver.semver 1 0 0)] [("chrome", Ver.num 0)]
      = .ok true
    ∧ semverify (Ver.num 0) = .ok (Ver.semver 0 0 0)
    ∧ semverGtB (Ver.semver 0 0 0) (Ver.semver 1 0 0) = false :=
  ⟨rfl, rfl, rfl⟩

/-- C1 (amended): for a non-empty target map whose values are valid semver
and a support table whose truthy entries at the target's keys are
normalizable, `isPluginRequired` returns `ok true` iff some environment key
of the target map has no truthy support entry or a normalized support
version strictly greater than the target's version, and `ok false` iff no
key does. -/
theorem isPluginRequired_characterization (T S : JSMap)
    (hne : T ≠ [])
    (hvalid : ∀ p ∈ T, semverValid p.2 = true)
    (hnorm : ∀ k ∈ T.map Prod.fst, ∀ v, jsGet S k = some v →
        isFalsy v = false → ∃ nv, semverify v = Except.ok nv) :
    (isPluginRequired T S = .ok true ↔
      ∃ k ∈ T.map Prod.fst, specRequiresFor T S k = true)
    ∧ (isPluginRequired T S = .ok false ↔
      ∀ k ∈ T.map Prod.fst, specRequiresFor T S k = false) := by
  have hT : ∀ k ∈ T.map Prod.fst, semverValid (jsGetD T k) = true := by
    intro k hk
    obtain ⟨v, hv⟩ := mem_keys_jsGet hk
    have := hvalid (k, v) (jsGet_mem hv)
    simpa [jsGetD, hv] using this
  have hfilter := filterReq_eq_filter T S (T.map Prod.fst) hT hnorm
  have hlen : (T.map Prod.fst).length ≠ 0 := by
    intro h
    exact hne (by simpa using List.eq_nil_of_length_eq_zero (by simpa using h))
  have hmain : isPluginRequired T S
      = .ok (decide
          (0 < ((T.map Prod.fst).filter
            (fun k => specRequiresFor T S k)).length)) := by
    unfold isPluginRequired
    rw [if_neg hlen, hfilter]
    rfl
  rw [hmain]
  constructor
  · constructor
    · intro h
      have : 0 < ((T.map Prod.fst).filter
          (fun k => specRequiresFor T S k)).length := by
        have := (Except.ok.injEq _ _).mp h
        simpa using this.symm
      obtain ⟨k, hk⟩ := List.exists_mem_of_length_pos this
      exact ⟨k, (List.mem_filter.mp hk).1, (List.mem_filter.mp hk).2⟩
    · rintro ⟨k, hk, hreq⟩
      have : k ∈ (T.map Prod.fst).filter (fun a => specRequiresFor T S a) :=
        List.mem_filter.mpr ⟨hk, hreq⟩
      have hpos := List.length_pos_of_mem this
      simp [hpos]
  · constructor
    · intro h k hk
      have hdec : decide (0 < ((T.map Prod.fst).filter
          (fun a => specRequiresFor T S a)).length) = false := by
        exact (Except.ok.injEq _ _).mp h
      have hnil : (T.map Prod.fst).filter (fun a => specRequiresFor T S a)
          = [] := by
        have := of_decide_eq_false hdec
        exact List.eq_nil_of_length_eq_zero (by omega)
      by_contra hcon
      have hkmem : k ∈ (T.map Prod.fst).filter
          (fun a => specRequiresFor T S a) :=
        List.mem_filter.mpr ⟨hk, by simpa using hcon⟩
      rw [hnil] at hkmem
      cases hkmem
    · intro h
      have hnil : (T.map Prod.fst).filter (fun a => specRequiresFor T S a)
          = [] := by
        rw [List.filter_eq_nil_iff]
        intro a ha
        simp [h a ha]
      simp [hnil]

/-- Witness for C1 at `T = {chrome: "55.0.0"}`, `S = {chrome: 60}`:
the characterization yields `ok true` because chrome's normalized support
version `60.0.0` exceeds the target `55.0.0`. -/
theorem isPluginRequired_characterization_witness :
    isPluginRequired [("chrome", Ver.semver 55 0 0)] [("chrome", Ver.num 60)]
      = .ok true :=
  (isPluginRequired_characterization [("chrome", Ver.semver 55 0 0)]
    [("chrome", Ver.num 60)] (by simp) (by decide)
    (by
      intro k hk v hv hf
      simp only [List.map_cons, List.map_nil, List.mem_cons,
        List.not_mem_nil, or_false] at hk
      subst hk
      simp only [jsGet, if_pos rfl] at hv
      cases hv
      exact ⟨Ver.semver 60 0 0, rfl⟩)).1.mpr
    ⟨"chrome", by simp, rfl⟩

/-- C3: whenever `filterItems` returns a result set, every member of the
include set is in it — even a name that is also excluded or unknown to the
catalog, for every catalog, target map and default set. -/
theorem filterItems_include_wins
    (list : Catalog) (includes excludes : List String) (targets : JSMap)
    (defaultItems : Option (List String)) (n : String) (res : List String)
    (hn : n ∈ includes)
    (h : filterItems list includes excludes targets defaultItems = .ok res) :
    n ∈ res := by
  unfold filterItems at h
  rw [except_bind_ok] at h
  obtain ⟨r0, -, hres⟩ := h
  have := (Except.ok.injEq _ _).mp hres
  subst this
  exact mem_foldl_setAdd.mpr (Or.inr hn)

/-- Witness for C3: the name `"transform-foo"` is included, excluded and
absent from the catalog; it lands in the result set. -/
theorem filterItems_include_wins_witness :
    "transform-foo" ∈ (["transform-foo"] : List String) :=
  filterItems_include_wins [] ["transform-foo"] ["transform-foo"]
    [("chrome", Ver.semver 55 0 0)] none "transform-foo" ["transform-foo"]
    (List.mem_cons_self _ _) rfl

/-- C5: whenever `filterItems` is given a default item set and returns a
result set, every default item not in the exclude set is in the result,
for every catalog and target map — the requirement evaluator is never
consulted for default items. -/
theorem filterItems_default_included
    (list : Catalog) (includes excludes : List String) (targets : JSMap)
    (items : List String) (d : String) (res : List String)
    (hd : d ∈ items) (hex : d ∉ excludes)
    (h : filterItems list includes excludes targets (some items) = .ok res) :
    d ∈ res := by
  unfold filterItems at h
  rw [except_bind_ok] at h
  obtain ⟨r0, -, hres⟩ := h
  have := (Except.ok.injEq _ _).mp hres
  subst this
  exact mem_foldl_setAdd.mpr (Or.inl (mem_excludeFold.mpr (Or.inr ⟨hd, hex⟩)))

/-- Witness for C5: the default item `"web.timers"` is natively supported
everywhere required (`{chrome: 1}` against target `{chrome: "55.0.0"}`, so
the requirement evaluator would reject it), yet it is in the result because
it is a default and not excluded. -/
theorem filterItems_default_included_witness :
    "web.timers" ∈ (["web.timers"] : List String) :=
  filterItems_default_included [("web.timers", [("chrome", Ver.num 1)])] []
    [] [("chrome", Ver.semver 55 0 0)] ["web.timers"] "web.timers"
    ["web.timers"] (List.mem_cons_self _ _) (by simp) rfl

/-- C6: `getPlatformSpecificDefaultFor` returns the predetermined default
set exactly when the target map is empty or some target key is not
`"node"`, and `none` exactly when the map is non-empty with every key
`"node"`; with the three concrete instances of the claim. -/
theorem getPlatformSpecificDefaultFor_characterization :
    (∀ T : JSMap,
      (getPlatformSpecificDefaultFor T = none ↔
        T ≠ [] ∧ ∀ p ∈ T, p.1 = "node")
      ∧ (getPlatformSpecificDefaultFor T = some defaultWebIncludes ↔
        T = [] ∨ ∃ p ∈ T, p.1 ≠ "node"))
    ∧ getPlatformSpecificDefaultFor [] = some defaultWebIncludes
    ∧ getPlatformSpecificDefaultFor [("node", Ver.semver 8 0 0)] = none
    ∧ getPlatformSpecificDefaultFor
        [("node", Ver.semver 8 0 0), ("chrome", Ver.semver 60 0 0)]
        = some defaultWebIncludes := by
  refine ⟨?_, rfl, by decide, by decide⟩
  intro T
  by_cases h : (T = [] ∨ ∃ p ∈ T, p.1 ≠ "node")
  · have hcondB : ((T.map Prod.fst).isEmpty
        || (T.map Prod.fst).any (fun name => name ≠ "node")) = true := by
      rcases h with rfl | ⟨p, hp, hpe⟩
      · rfl
      · have hany : (T.map Prod.fst).any (fun name => name ≠ "node") = true :=
          List.any_eq_true.mpr
            ⟨p.1, List.mem_map_of_mem _ hp, by simpa using hpe⟩
        rw [hany, Bool.or_true]
    have hval : getPlatformSpecificDefaultFor T = some defaultWebIncludes := by
      unfold getPlatformSpecificDefaultFor
      exact if_pos hcondB
    refine ⟨?_, ?_⟩
    · rw [hval]
      refine iff_of_false (fun hc => Option.noConfusion hc) ?_
      rintro ⟨hne, hall⟩
      rcases h with rfl | ⟨p, hp, hpe⟩
      · exact hne rfl
      · exact hpe (hall p hp)
    · rw [hval]
      exact iff_of_true rfl h
  · push_neg at h
    obtain ⟨hne, hall⟩ := h
    have h1 : (T.map Prod.fst).isEmpty = false := by
      rw [List.isEmpty_eq_false_iff_exists_mem]
      obtain ⟨p, hp⟩ := List.exists_mem_of_ne_nil T hne
      exact ⟨p.1, List.mem_map_of_mem _ hp⟩
    have h2 : (T.map Prod.fst).any (fun name => name ≠ "node") = false := by
      rw [Bool.eq_false_iff]
      intro hany
      obtain ⟨a, ha, hx⟩ := List.any_eq_true.mp hany
      obtain ⟨p, hp, rfl⟩ := List.mem_map.mp ha
      exact (of_decide_eq_true hx) (hall p hp)
    have hval : getPlatformSpecificDefaultFor T = none := by
      unfold getPlatformSpecificDefaultFor
      refine if_neg ?_
      rw [h1, h2]
      simp
    refine ⟨?_, ?_⟩
    · rw [hval]
      exact iff_of_true rfl ⟨hne, hall⟩
    · rw [hval]
      refine iff_of_false (fun hc => Option.noConfusion hc) ?_
      rintro (rfl | ⟨p, hp, hpe⟩)
      · exact hne rfl
      · exact hpe (hall p hp)

theorem restDigitsThenDot_iff (l : List Char) :
    restDigitsThenDot l = true ↔
      ∃ ds tail, l = ds ++ '.' :: tail ∧ ∀ c ∈ ds, c.isDigit = true := by
  induction l with
  | nil =>
    constructor
    · intro hc
      cases hc
    · rintro ⟨ds, tail, hl, -⟩
      cases ds with
      | nil => cases hl
      | cons d ds1 => cases hl
  | cons c cs ih =>
    unfold restDigitsThenDot
    constructor
    · intro hc
      rcases Bool.or_eq_true_iff.mp hc with h1 | h1
      · refine ⟨[], cs, ?_, by intro a ha; cases ha⟩
        rw [of_decide_eq_true h1]
        rfl
      · obtain ⟨hdig, hrest⟩ := Bool.and_eq_true_iff.mp h1
        obtain ⟨ds, tail, heq, hds⟩ := ih.mp hrest
        refine ⟨c :: ds, tail, by rw [heq]; rfl, ?_⟩
        intro a ha
        rcases List.mem_cons.mp ha with rfl | ha
        · exact hdig
        · exact hds a ha
    · rintro ⟨ds, tail, heq, hds⟩
      cases ds with
      | nil =>
        have : c = '.' := (List.cons.injEq _ _ _ _).mp heq |>.1
        rw [this]
        simp
      | cons d ds1 =>
        have hc : c = d := (List.cons.injEq _ _ _ _).mp heq |>.1
        have hcs : cs = ds1 ++ '.' :: tail := (List.cons.injEq _ _ _ _).mp heq |>.2
        have hdig : c.isDigit = true := hc ▸ hds d (List.mem_cons_self _ _)
        have hrest : restDigitsThenDot cs = true :=
          ih.mpr ⟨ds1, tail, hcs, fun a ha => hds a (List.mem_cons_of_mem _ ha)⟩
        rw [hdig, hrest]
        simp

theorem digitsThenDot_iff (l : List Char) :
    digitsThenDot l = true ↔
      ∃ ds tail, l = ds ++ '.' :: tail ∧ ds ≠ [] ∧ ∀ c ∈ ds, c.isDigit = true := by
  cases l with
  | nil =>
    constructor
    · intro hc
      cases hc
    · rintro ⟨ds, tail, hl, -, -⟩
      cases ds with
      | nil => cases hl
      | cons d ds1 => cases hl
  | cons c cs =>
    unfold digitsThenDot
    constructor
    · intro hc
      obtain ⟨hdig, hrest⟩ := Bool.and_eq_true_iff.mp hc
      obtain ⟨ds, tail, heq, hds⟩ := (restDigitsThenDot_iff cs).mp hrest
      refine ⟨c :: ds, tail, by rw [heq]; rfl, by simp, ?_⟩
      intro a ha
      rcases List.mem_cons.mp ha with rfl | ha
      · exact hdig
      · exact hds a ha
    · rintro ⟨ds, tail, heq, hne, hds⟩
      cases ds with
      | nil => exact absurd rfl hne
      | cons d ds1 =>
        have hc : c = d := (List.cons.injEq _ _ _ _).mp heq |>.1
        have hcs : cs = ds1 ++ '.' :: tail :=
          (List.cons.injEq _ _ _ _).mp heq |>.2
        have hdig : c.isDigit = true := hc ▸ hds d (List.mem_cons_self _ _)
        have hrest : restDigitsThenDot cs = true :=
          (restDigitsThenDot_iff cs).mpr
            ⟨ds1, tail, hcs, fun a ha => hds a (List.mem_cons_of_mem _ ha)⟩
        show (c.isDigit && restDigitsThenDot cs) = true
        rw [hdig, hrest]
        rfl

theorem isBuiltInName_iff (s : String) :
    isBuiltInName s = true ↔ SpecBuiltInName s := by
  unfold isBuiltInName SpecBuiltInName
  split
  · rename_i rest heq
    rw [digitsThenDot_iff]
    constructor
    · rintro ⟨ds, tail, hrest, hne, hds⟩
      exact Or.inl ⟨ds, tail, by rw [heq, hrest], hne, hds⟩
    · rintro (⟨ds, tail, hl, hne, hds⟩ | ⟨tail, hl⟩)
      · rw [heq] at hl
        have h1 := (List.cons.injEq _ _ _ _).mp hl |>.2
        have h2 := (List.cons.injEq _ _ _ _).mp h1 |>.2
        exact ⟨ds, tail, h2, hne, hds⟩
      · rw [heq] at hl
        have h1 := (List.cons.injEq _ _ _ _).mp hl |>.1
        cases h1
  · rename_i x heq
    refine iff_of_true rfl (Or.inr ⟨x, heq⟩)
  · rename_i hno1 hno2
    constructor
    · intro hc
      cases hc
    · rintro (⟨ds, tail, hl, hne, hds⟩ | ⟨tail, hl⟩)
      · exact (hno1 (ds ++ '.' :: tail) hl).elim
      · exact (hno2 tail hl).elim

theorem classify_foldl_all (opts : List String) (acc : IncExc) :
    (opts.foldl classifyStep acc).all = acc.all := by
  induction opts generalizing acc with
  | nil => rfl
  | cons a rest ih =>
    rw [List.foldl_cons, ih]
    unfold classifyStep
    split <;> rfl

theorem classify_foldl_builtIns (opts : List String) (acc : IncExc)
    (n : String) :
    n ∈ (opts.foldl classifyStep acc).builtIns ↔
      n ∈ acc.builtIns ∨ (n ∈ opts ∧ isBuiltInName n = true) := by
  induction opts generalizing acc with
  | nil => simp
  | cons a rest ih =>
    rw [List.foldl_cons, ih]
    unfold classifyStep
    by_cases ha : isBuiltInName a = true
    · rw [if_pos ha]
      simp only [mem_setAdd_iff, List.mem_cons]
      constructor
      · rintro ((h | rfl) | ⟨h1, h2⟩)
        · exact Or.inl h
        · exact Or.inr ⟨Or.inl rfl, ha⟩
        · exact Or.inr ⟨Or.inr h1, h2⟩
      · rintro (h | ⟨rfl | h1, h2⟩)
        · exact Or.inl (Or.inl h)
        · exact Or.inl (Or.inr rfl)
        · exact Or.inr ⟨h1, h2⟩
    · rw [if_neg ha]
      simp only [List.mem_cons]
      constructor
      · rintro (h | ⟨h1, h2⟩)
        · exact Or.inl h
        · exact Or.inr ⟨Or.inr h1, h2⟩
      · rintro (h | ⟨rfl | h1, h2⟩)
        · exact Or.inl h
        · exact absurd h2 ha
        · exact Or.inr ⟨h1, h2⟩

theorem classify_foldl_plugins (opts : List String) (acc : IncExc)
    (n : String) :
    n ∈ (opts.foldl classifyStep acc).plugins ↔
      n ∈ acc.plugins ∨ (n ∈ opts ∧ isBuiltInName n = false) := by
  induction opts generalizing acc with
  | nil => simp
  | cons a rest ih =>
    rw [List.foldl_cons, ih]
    unfold classifyStep
    by_cases ha : isBuiltInName a = true
    · rw [if_pos ha]
      simp only [List.mem_cons]
      constructor
      · rintro (h | ⟨h1, h2⟩)
        · exact Or.inl h
        · exact Or.inr ⟨Or.inr h1, h2⟩
      · rintro (h | ⟨rfl | h1, h2⟩)
        · exact Or.inl h
        · rw [ha] at h2
          cases h2
        · exact Or.inr ⟨h1, h2⟩
    · rw [if_neg ha]
      simp only [mem_setAdd_iff, List.mem_cons]
      constructor
      · rintro ((h | rfl) | ⟨h1, h2⟩)
        · exact Or.inl h
        · exact Or.inr ⟨Or.inl rfl, by simpa using ha⟩
        · exact Or.inr ⟨Or.inr h1, h2⟩
      · rintro (h | ⟨rfl | h1, h2⟩)
        · exact Or.inl (Or.inl h)
        · exact Or.inl (Or.inr rfl)
        · exact Or.inr ⟨h1, h2⟩

/-- C7: `transformIncludesAndExcludes` puts a name in `builtIns` iff it is
an input name matching the pattern "`es` + digits + `.`, or `web.`", in
`plugins` iff it is an input name not matching it; the two sets are
disjoint; `all` is the input unchanged; and the claim's concrete example
partitions as stated. -/
theorem transformIncludesAndExcludes_partition (opts : List String)
    (n : String) :
    (n ∈ (transformIncludesAndExcludes opts).builtIns ↔
      n ∈ opts ∧ SpecBuiltInName n)
    ∧ (n ∈ (transformIncludesAndExcludes opts).plugins ↔
      n ∈ opts ∧ ¬ SpecBuiltInName n)
    ∧ ¬ (n ∈ (transformIncludesAndExcludes opts).plugins
        ∧ n ∈ (transformIncludesAndExcludes opts).builtIns)
    ∧ (transformIncludesAndExcludes opts).all = opts
    ∧ transformIncludesAndExcludes
        ["es6.promise", "transform-arrow-functions", "web.timers"]
      = { all := ["es6.promise", "transform-arrow-functions", "web.timers"]
          plugins := ["transform-arrow-functions"]
          builtIns := ["es6.promise", "web.timers"] } := by
  have hb : n ∈ (transformIncludesAndExcludes opts).builtIns ↔
      n ∈ opts ∧ SpecBuiltInName n := by
    unfold transformIncludesAndExcludes
    rw [classify_foldl_builtIns]
    simp only [List.not_mem_nil, false_or]
    rw [isBuiltInName_iff]
  have hp : n ∈ (transformIncludesAndExcludes opts).plugins ↔
      n ∈ opts ∧ ¬ SpecBuiltInName n := by
    unfold transformIncludesAndExcludes
    rw [classify_foldl_plugins]
    simp only [List.not_mem_nil, false_or]
    rw [← isBuiltInName_iff]
    simp
  refine ⟨hb, hp, ?_, ?_, by decide⟩
  · rintro ⟨h1, h2⟩
    exact (hp.mp h1).2 (hb.mp h2).2
  · unfold transformIncludesAndExcludes
    rw [classify_foldl_all]

theorem ok_bind {α β : Type} (a : α) (f : α → Except String β) :
    (Except.ok a >>= f) = f a := rfl

theorem filterCatalog_empty_targets (excludes : List String)
    (catalog : Catalog) (acc : List String) :
    filterCatalog excludes [] catalog acc
      = .ok (catalog.foldl
          (fun r p => if p.1 ∈ excludes then r else setAdd r p.1) acc) := by
  induction catalog generalizing acc with
  | nil => rfl
  | cons p rest ih =>
    obtain ⟨item, table⟩ := p
    unfold filterCatalog
    rw [List.foldl_cons]
    by_cases hp : item ∈ excludes
    · rw [if_pos hp, ih, if_pos hp]
    · rw [if_neg hp, if_neg hp]
      rw [show isPluginRequired [] table = .ok true from rfl, ok_bind]
      rw [ih]
      rfl

theorem mem_catalogFold {catalog : Catalog} {excludes acc : List String}
    {x : String} :
    x ∈ catalog.foldl
        (fun r p => if p.1 ∈ excludes then r else setAdd r p.1) acc ↔
      x ∈ acc ∨ (x ∈ catalog.map Prod.fst ∧ x ∉ excludes) := by
  induction catalog generalizing acc with
  | nil => simp
  | cons p rest ih =>
    rw [List.foldl_cons]
    simp only [List.map_cons, List.mem_cons]
    by_cases hp : p.1 ∈ excludes
    · rw [if_pos hp, ih]
      constructor
      · rintro (h | ⟨h1, h2⟩)
        · exact Or.inl h
        · exact Or.inr ⟨Or.inr h1, h2⟩
      · rintro (h | ⟨rfl | h1, h2⟩)
        · exact Or.inl h
        · exact absurd hp h2
        · exact Or.inr ⟨h1, h2⟩
    · rw [if_neg hp, ih]
      simp only [mem_setAdd_iff]
      constructor
      · rintro ((h | rfl) | ⟨h1, h2⟩)
        · exact Or.inl h
        · exact Or.inr ⟨Or.inl rfl, hp⟩
        · exact Or.inr ⟨Or.inr h1, h2⟩
      · rintro (h | ⟨rfl | h1, h2⟩)
        · exact Or.inl (Or.inl h)
        · exact Or.inl (Or.inr rfl)
        · exact Or.inr ⟨h1, h2⟩

/-- C8 counterexample: with `useSyntax: false` and the catalog plugin
`"transform-foo"` explicitly excluded, the effective target map is empty
but the resolved transformation set is empty too — it does not contain
every cataloged transformation, contradicting the claim. -/
theorem buildPreset_useSyntax_false_cex :
    (buildPresetCore [("transform-foo", [])] [] none [] ["transform-foo"]
        false false).map (fun o => (o.transformTargets, o.transformations))
      = .ok ([], []) := rfl

theorem exceptPure_bind {α β : Type} (a : α) (f : α → Except String β) :
    ((pure a : Except String α) >>= f) = f a := rfl

/-- C8 (amended): when `useSyntax` is `false` and `buildPreset` resolves
successfully, the effective target map for transformation filtering is
empty and the resolved transformation set contains every cataloged
transformation that is not in the (plugin-classified) exclude set. -/
theorem buildPreset_useSyntax_false_all_plugins
    (pluginList builtInsList : Catalog) (optionsTargets : Option JSMap)
    (optionsInclude optionsExclude : List String) (useBuiltIns : Bool)
    (out : BuildPresetOut) (name : String)
    (h : buildPresetCore pluginList builtInsList optionsTargets
        optionsInclude optionsExclude useBuiltIns false = .ok out) :
    out.transformTargets = []
    ∧ (name ∈ pluginList.map Prod.fst →
        name ∉ (transformIncludesAndExcludes optionsExclude).plugins →
        name ∈ out.transformations) := by
  simp only [buildPresetCore, Bool.not_false, Bool.true_or, if_true] at h
  rw [except_bind_ok] at h
  obtain ⟨transformations, htr, h⟩ := h
  unfold filterItems at htr
  rw [filterCatalog_empty_targets, ok_bind] at htr
  have htr' := (Except.ok.injEq _ _).mp htr
  have hfin : out.transformTargets = []
      ∧ out.transformations = transformations := by
    by_cases hub : useBuiltIns = true
    · rw [if_pos hub, except_bind_ok] at h
      obtain ⟨polyfills, -, h⟩ := h
      rw [exceptPure_bind] at h
      have hout := (Except.ok.injEq _ _).mp h
      rw [← hout]
      exact ⟨rfl, rfl⟩
    · rw [if_neg hub, exceptPure_bind] at h
      have hout := (Except.ok.injEq _ _).mp h
      rw [← hout]
      exact ⟨rfl, rfl⟩
  refine ⟨hfin.1, ?_⟩
  intro hmem hnex
  rw [hfin.2, ← htr']
  exact mem_foldl_setAdd.mpr
    (Or.inl (mem_catalogFold.mpr (Or.inr ⟨hmem, hnex⟩)))

/-- Witness for C8: one catalog plugin, nothing excluded; it is in the
resolved transformation set. -/
theorem buildPreset_useSyntax_false_all_plugins_witness :
    "transform-foo" ∈
      ({ optionsTargetsOut := none, hasUglifyTarget := false,
         transformTargets := [], transformations := ["transform-foo"],
         polyfillTargets := none, polyfills := none,
         regenerator := false } : BuildPresetOut).transformations :=
  (buildPreset_useSyntax_false_all_plugins [("transform-foo", [])] [] none
    [] [] false _ "transform-foo" rfl).2 (by decide) (by decide)

/-- C9 counterexample: the caller's targets object contains the `"uglify"`
key with the (falsy) value `0`; `buildPreset` neither deletes the key nor
empties the effective target map — the special case fires only on a truthy
`uglify` value. -/
theorem buildPreset_uglify_cex :
    (buildPresetCore [] [] (some [("uglify", Ver.num 0)]) [] [] false
        true).map (fun o => (o.optionsTargetsOut, o.transformTargets))
      = .ok (some [("uglify", Ver.num 0)], [("uglify", Ver.num 0)]) := rfl

/-- C9 (amended): when the caller-supplied targets object has a truthy
`"uglify"` entry and `buildPreset` resolves successfully, the object's
final state has the `"uglify"` key deleted with every other key unchanged,
and the effective target map for transformation filtering is empty
regardless of `useSyntax`. -/
theorem buildPreset_uglify_strip
    (pluginList builtInsList : Catalog) (t : JSMap)
    (optionsInclude optionsExclude : List String)
    (useBuiltIns useSyntax : Bool) (out : BuildPresetOut)
    (hug : jsTruthyAt t "uglify" = true)
    (h : buildPresetCore pluginList builtInsList (some t)
        optionsInclude optionsExclude useBuiltIns useSyntax = .ok out) :
    out.optionsTargetsOut = some (jsDelete t "uglify")
    ∧ out.transformTargets = []
    ∧ jsGet (jsDelete t "uglify") "uglify" = none
    ∧ ∀ k, k ≠ "uglify" → jsGet (jsDelete t "uglify") k = jsGet t k := by
  simp only [buildPresetCore, hug, if_true, Option.map_some', Bool.or_true]
    at h
  rw [except_bind_ok] at h
  obtain ⟨transformations, -, h⟩ := h
  have hfin : out.optionsTargetsOut = some (jsDelete t "uglify")
      ∧ out.transformTargets = [] := by
    by_cases hub : useBuiltIns = true
    · rw [if_pos hub, except_bind_ok] at h
      obtain ⟨polyfills, -, h⟩ := h
      rw [exceptPure_bind] at h
      have hout := (Except.ok.injEq _ _).mp h
      rw [← hout]
      exact ⟨rfl, rfl⟩
    · rw [if_neg hub, exceptPure_bind] at h
      have hout := (Except.ok.injEq _ _).mp h
      rw [← hout]
      exact ⟨rfl, rfl⟩
  exact ⟨hfin.1, hfin.2, jsGet_jsDelete_self t "uglify",
    fun k hk => jsGet_jsDelete_ne t "uglify" k hk⟩

/-- Witness for C9 at targets `{uglify: 1, chrome: "55.0.0"}` with
`useSyntax: true`: the final targets object keeps `chrome` and loses
`uglify`. -/
theorem buildPreset_uglify_strip_witness :
    jsGet (jsDelete [("uglify", Ver.num 1), ("chrome", Ver.semver 55 0 0)]
        "uglify") "chrome"
      = jsGet [("uglify", Ver.num 1), ("chrome", Ver.semver 55 0 0)]
        "chrome" :=
  (buildPreset_uglify_strip [] []
    [("uglify", Ver.num 1), ("chrome", Ver.semver 55 0 0)] [] [] false true
    { optionsTargetsOut := some [("chrome", Ver.semver 55 0 0)],
      hasUglifyTarget := true, transformTargets := [], transformations := [],
      polyfillTargets := none, polyfills := none, regenerator := false }
    rfl rfl).2.2.2 "chrome" (by decide)
